import Mathlib

/-!
Verification of the SLATE non-pivoted LU driver (`src/getrf_nopiv.cc`) and its
compatibility shims (`lapack_api`/`scalapack_api`), via a shallow embedding.

The numerical content of the driver is the composition of the tile kernels
`internal::getrf_nopiv` (panel factor), `internal::trsm` and `internal::gemm`.
The kernel sources are not part of this tree; following the specification they
are black boxes whose mathematical effect is documented (panel LU, triangular
solve, multiply-accumulate).  Composed over the tile grid, the driver performs
right-looking Gaussian elimination without pivoting; we embed that elimination
at the element level over an arbitrary field (exact arithmetic), which models
all four supported scalar types.
-/

namespace Slate

/-! #### Definitions -/

/-- One step of right-looking elimination, pivot `k`, on the in-place storage:
column `k` below the diagonal receives the multipliers
(`trsm` right with the upper factor of `A(k,k)`), and the trailing block
receives the rank-one update (`trsm` left with the unit-lower factor, then
`gemm`).  Rows `i ≤ k` and columns `j < k` are untouched. -/
def luStep {K : Type} [Field K] {n : ℕ} (S : Matrix (Fin n) (Fin n) K) (k : Fin n) :
    Matrix (Fin n) (Fin n) K :=
  Matrix.of fun i j =>
    if (k : ℕ) < (i : ℕ) ∧ (j : ℕ) = (k : ℕ) then S i k / S k k
    else if (k : ℕ) < (i : ℕ) ∧ (k : ℕ) < (j : ℕ) then S i j - S i k / S k k * S k j
    else S i j

/-- The storage after the first `m` iterations of the driver loop
(`for (k = 0; k < min_mt_nt; ++k)` in `internal::specialization::getrf_nopiv`). -/
def luIter {K : Type} [Field K] {n : ℕ} (A : Matrix (Fin n) (Fin n) K) : ℕ → Matrix (Fin n) (Fin n) K
  | 0 => A
  | m + 1 => if h : m < n then luStep (luIter A m) ⟨m, h⟩ else luIter A m

/-- The overwritten storage returned by `getrf_nopiv`: factors `L` (unit lower,
unit diagonal not stored) and `U` (upper) packed in place. -/
def getrf_nopiv {K : Type} [Field K] {n : ℕ} (A : Matrix (Fin n) (Fin n) K) :
    Matrix (Fin n) (Fin n) K :=
  luIter A n

/-- Reading the unit-lower-triangular factor from the overwritten storage. -/
def lowerFactor {K : Type} [Field K] {n : ℕ} (F : Matrix (Fin n) (Fin n) K) :
    Matrix (Fin n) (Fin n) K :=
  Matrix.of fun i j => if (j : ℕ) < (i : ℕ) then F i j else if i = j then 1 else 0

/-- Reading the upper-triangular factor from the overwritten storage. -/
def upperFactor {K : Type} [Field K] {n : ℕ} (F : Matrix (Fin n) (Fin n) K) :
    Matrix (Fin n) (Fin n) K :=
  Matrix.of fun i j => if (i : ℕ) ≤ (j : ℕ) then F i j else 0

/-- Partially accumulated unit-lower factor: multiplier columns `< m` of the
storage `S`, identity elsewhere. -/
def partialL {K : Type} [Field K] {n : ℕ} (S : Matrix (Fin n) (Fin n) K) (m : ℕ) :
    Matrix (Fin n) (Fin n) K :=
  Matrix.of fun i j =>
    if (j : ℕ) < m ∧ (j : ℕ) < (i : ℕ) then S i j else if i = j then 1 else 0

/-- Partially eliminated matrix: the storage `S` with the already-eliminated
entries (strictly below the diagonal in columns `< m`) read as the zeros they
mathematically are. -/
def partialU {K : Type} [Field K] {n : ℕ} (S : Matrix (Fin n) (Fin n) K) (m : ℕ) :
    Matrix (Fin n) (Fin n) K :=
  Matrix.of fun i j =>
    if (j : ℕ) < m ∧ (j : ℕ) < (i : ℕ) then 0 else S i j

/-- The 1-norm used by the specification: maximum over columns of the column
sum of absolute values, through an absolute value `v` on the scalar field
(covering the real and complex scalar types uniformly). -/
def norm1 {K : Type} [Field K] {n : ℕ} (v : AbsoluteValue K ℚ)
    (A : Matrix (Fin n) (Fin n) K) : ℚ :=
  Finset.univ.fold max 0 fun j => ∑ i, v (A i j)

/-- The error taxonomy of the engine. -/
inductive SlateError
  | invalidArgument
  | assertionFailure
  | outOfMemory
  | communicationFailure
  | kernelFailure
deriving DecidableEq

/-- A concrete nonsingular 1×1-tile input. -/
def exampleA : Matrix (Fin 1) (Fin 1) ℚ := Matrix.of fun _ _ => 2

/-- Modelled from the spec: the observability hook (diagnostic channel).  The
worked source's return-code path is a `TODO`; the specification prescribes
recording each singular column as a warning-level diagnostic.  Column `k` is
singular when the pivot `U(k,k)` produced by the factorization is exactly
zero. -/
def singularDiagnostics {K : Type} [Field K] [DecidableEq K] {n : ℕ}
    (A : Matrix (Fin n) (Fin n) K) : List ℕ :=
  ((List.finRange n).filter fun k => decide (getrf_nopiv A k k = 0)).map Fin.val

/-- The driver call: the source has no failure path on a zero pivot (division
by a zero pivot produces a well-defined value in the embedding, matching
non-raising IEEE division in the code), so it always runs to completion and
returns the factored storage as-is, together with the diagnostics. -/
def getrf_nopiv_driver {K : Type} [Field K] [DecidableEq K] {n : ℕ}
    (A : Matrix (Fin n) (Fin n) K) :
    Except SlateError (Matrix (Fin n) (Fin n) K × List ℕ) :=
  .ok (getrf_nopiv A, singularDiagnostics A)

/-- A concrete singular 1×1-tile input. -/
def exampleSingular : Matrix (Fin 1) (Fin 1) ℚ := Matrix.of fun _ _ => 0

/-! ### Options resolution (`getrf_nopiv<target, scalar_t>` entry, lines 404-438)

The source looks each option up in the map; absence (`std::out_of_range`)
selects the default.  Present values are checked with debug `assert`s —
`assert(lookahead >= 0)`, `assert(ib >= 0)`,
`assert(max_panel_threads >= 1 && max_panel_threads <= omp_get_max_threads())`
— modelled with their debug semantics as an abort distinct from the
`InvalidArgument` error class. -/

/-- Option names of the engine's option map. -/
inductive OptName
  | Lookahead
  | InnerBlocking
  | MaxPanelThreads
  | Target
deriving DecidableEq

/-- The option map: each name is either absent or bound to an integer value
(`OptionValue.i_`). -/
def OptMap : Type := OptName → Option ℤ

/-- The option values resolved at driver entry. -/
structure ResolvedOpts where
  lookahead : ℤ
  ib : ℤ
  max_panel_threads : ℤ
deriving DecidableEq

/-- Resolution of `MaxPanelThreads`: asserted to lie in `[1, omp_get_max_threads()]`
when present; defaults to `max(omp_get_max_threads()/2, 1)` when absent. -/
def mptStage (T : ℤ) (mo : Option ℤ) (l i : ℤ) : Except SlateError ResolvedOpts :=
  match mo with
  | some v => if 1 ≤ v ∧ v ≤ T then .ok ⟨l, i, v⟩ else .error .assertionFailure
  | none => .ok ⟨l, i, max (T / 2) 1⟩

/-- Resolution of `InnerBlocking`: asserted nonnegative when present; defaults
to 16 when absent. -/
def ibStage (T : ℤ) (io mo : Option ℤ) (l : ℤ) : Except SlateError ResolvedOpts :=
  match io with
  | some v => if 0 ≤ v then mptStage T mo l v else .error .assertionFailure
  | none => mptStage T mo l 16

/-- Resolution of `Lookahead`: asserted nonnegative when present; defaults to 1
when absent. -/
def lookStage (T : ℤ) (lo io mo : Option ℤ) : Except SlateError ResolvedOpts :=
  match lo with
  | some v => if 0 ≤ v then ibStage T io mo v else .error .assertionFailure
  | none => ibStage T io mo 1

/-- Option resolution at driver entry, `T` being `omp_get_max_threads()`. -/
def resolveOpts (T : ℤ) (opts : OptMap) : Except SlateError ResolvedOpts :=
  lookStage T (opts OptName.Lookahead) (opts OptName.InnerBlocking)
    (opts OptName.MaxPanelThreads)

/-- Execution targets of the engine. -/
inductive Target
  | Host
  | HostTask
  | HostNest
  | HostBatch
  | Devices
deriving DecidableEq

/-- Modelled from the spec: the integer codes of the `Target` enum live in the
engine's public header (not part of this tree); only their distinctness is
relevant here. -/
def targetCode : Target → ℤ
  | .Host => 0
  | .HostTask => 1
  | .HostNest => 2
  | .HostBatch => 3
  | .Devices => 4

/-- Lookup of `Option::Target` in the public driver; absent defaults to
`Target::HostTask`. -/
def resolveTarget (opts : OptMap) : ℤ :=
  (opts OptName.Target).getD (targetCode Target.HostTask)

/-- The `switch (target)` of the public driver: `Host` and `HostTask` both
dispatch to the `HostTask` specialization; a code matching no case falls
through the switch and no specialization runs. -/
def dispatchSpecialization (v : ℤ) : Option Target :=
  if v = targetCode Target.Host ∨ v = targetCode Target.HostTask then some Target.HostTask
  else if v = targetCode Target.HostNest then some Target.HostNest
  else if v = targetCode Target.HostBatch then some Target.HostBatch
  else if v = targetCode Target.Devices then some Target.Devices
  else none

/-! ### The driver schedule (`internal::specialization::getrf_nopiv`, lines 53-187) -/

/-- The tasks submitted by the driver, in source order. -/
inductive DriverOp
  | panelFactor (k : ℕ)
  | panelTrsmRight (k : ℕ)
  | panelRowBcast (k : ℕ)
  | lookaheadTrsmLeft (k j : ℕ)
  | lookaheadGemm (k j : ℕ)
  | trailingTrsmLeft (k : ℕ)
  | trailingRowBcast (k : ℕ)
  | trailingGemm (k : ℕ)
  | taskwait
  | updateAllOrigin
deriving DecidableEq

/-- The task submissions of one driver iteration `k`: the three panel tasks,
the per-column lookahead pair for `j = k+1` while `j < k+1+lookahead && j < Nt`,
and the trailing trio guarded by `k+1+lookahead < Nt`. -/
def iterOps (Nt lookahead k : ℕ) : List DriverOp :=
  [DriverOp.panelFactor k, DriverOp.panelTrsmRight k, DriverOp.panelRowBcast k]
    ++ ((List.range' (k + 1) (min (k + 1 + lookahead) Nt - (k + 1))).flatMap fun j =>
        [DriverOp.lookaheadTrsmLeft k j, DriverOp.lookaheadGemm k j])
    ++ (if k + 1 + lookahead < Nt then
        [DriverOp.trailingTrsmLeft k, DriverOp.trailingRowBcast k, DriverOp.trailingGemm k]
      else [])

/-- The full submission sequence of the driver: the loop over
`k = 0 … min(Mt,Nt)-1`, then the `taskwait` barrier, then
`tileUpdateAllOrigin`. -/
def driverOps (Mt Nt lookahead : ℕ) : List DriverOp :=
  ((List.range (min Mt Nt)).flatMap (iterOps Nt lookahead))
    ++ [DriverOp.taskwait, DriverOp.updateAllOrigin]

/-- The public `getrf_nopiv` call: target dispatch, option resolution at the
templated entry, then the specialization.  The specialization's numerical
effect is `getrf_nopiv` (all targets run the same mathematics) and its
submission schedule is `driverOps`; neither consumes
`max_panel_threads`, whose parameter is unused in both specializations. -/
def getrf_nopiv_top {K : Type} [Field K] {n : ℕ} (ompMaxThreads : ℤ) (opts : OptMap)
    (A : Matrix (Fin n) (Fin n) K) :
    Except SlateError (Matrix (Fin n) (Fin n) K × List DriverOp) :=
  match dispatchSpecialization (resolveTarget opts) with
  | none => .ok (A, [])
  | some _t =>
    match resolveOpts ompMaxThreads opts with
    | .error e => .error e
    | .ok r => .ok (getrf_nopiv A, driverOps n n r.lookahead.toNat)

/-- The option map `{InnerBlocking = 0}`: a non-positive inner blocking that
the claim says must fail with InvalidArgument. -/
def c3Opts : OptMap := fun o =>
  match o with
  | OptName.InnerBlocking => some 0
  | _ => none

/-- The option map `{Lookahead = -1}`. -/
def c3NegLookOpts : OptMap := fun o =>
  match o with
  | OptName.Lookahead => some (-1)
  | _ => none

/-- The empty option map. -/
def emptyOpts : OptMap := fun _ => none

/-- The documented defaults passed explicitly. -/
def defaultOpts : OptMap := fun o =>
  match o with
  | OptName.Lookahead => some 1
  | OptName.InnerBlocking => some 16
  | OptName.Target => some (targetCode Target.HostTask)
  | OptName.MaxPanelThreads => none

/-! ### Task dependency sets (the `omp task depend` clauses, lines 56-179) -/

/-- The dependency tokens of the driver: the per-column byte arrays
`column[0..Nt-1]` and `diag[0..Nt-1]`, and the scalar `mpi_bandwidth`. -/
inductive Token
  | column (i : ℕ)
  | diag (i : ℕ)
  | bandwidth
deriving DecidableEq

/-- Dependence modes: `depend(in:)`, `depend(out:)`, `depend(inout:)`. -/
inductive DepMode
  | readOnly
  | writeOnly
  | readWrite
deriving DecidableEq

/-- A submitted task, reduced to its dependency clause. -/
structure OmpTask where
  deps : List (Token × DepMode)
deriving DecidableEq

/-- Panel factor task: `depend(inout:column[k]) depend(out:diag[k])`. -/
def panelFactorTask (k : ℕ) : OmpTask :=
  ⟨[(Token.column k, DepMode.readWrite), (Token.diag k, DepMode.writeOnly)]⟩

/-- Panel trsm-right task: `depend(inout:column[k]) depend(in:diag[k])`. -/
def panelTrsmTask (k : ℕ) : OmpTask :=
  ⟨[(Token.column k, DepMode.readWrite), (Token.diag k, DepMode.readOnly)]⟩

/-- Panel-row broadcast task:
`depend(inout:column[k]) depend(inout:mpi_bandwidth)`. -/
def panelRowBcastTask (k : ℕ) : OmpTask :=
  ⟨[(Token.column k, DepMode.readWrite), (Token.bandwidth, DepMode.readWrite)]⟩

/-- Lookahead trsm-left task: `depend(in:diag[k]) depend(inout:column[j])`. -/
def lookaheadTrsmTask (k j : ℕ) : OmpTask :=
  ⟨[(Token.diag k, DepMode.readOnly), (Token.column j, DepMode.readWrite)]⟩

/-- Lookahead gemm task: `depend(in:column[k]) depend(inout:column[j])`. -/
def lookaheadGemmTask (k j : ℕ) : OmpTask :=
  ⟨[(Token.column k, DepMode.readOnly), (Token.column j, DepMode.readWrite)]⟩

/-- Trailing trsm-left task: `depend(in:diag[k])
depend(inout:column[k+1+lookahead]) depend(inout:column[A_nt-1])`. -/
def trailingTrsmTask (Nt l k : ℕ) : OmpTask :=
  ⟨[(Token.diag k, DepMode.readOnly), (Token.column (k + 1 + l), DepMode.readWrite),
    (Token.column (Nt - 1), DepMode.readWrite)]⟩

/-- Trailing row-broadcast task: `depend(inout:column[k+1+lookahead])
depend(inout:column[A_nt-1]) depend(inout:mpi_bandwidth)`. -/
def trailingBcastTask (Nt l k : ℕ) : OmpTask :=
  ⟨[(Token.column (k + 1 + l), DepMode.readWrite), (Token.column (Nt - 1), DepMode.readWrite),
    (Token.bandwidth, DepMode.readWrite)]⟩

/-- Trailing gemm task: `depend(in:column[k])
depend(inout:column[k+1+lookahead]) depend(inout:column[A_nt-1])`. -/
def trailingGemmTask (Nt l k : ℕ) : OmpTask :=
  ⟨[(Token.column k, DepMode.readOnly), (Token.column (k + 1 + l), DepMode.readWrite),
    (Token.column (Nt - 1), DepMode.readWrite)]⟩

/-- The tokens a task's dependency clause mentions. -/
def tokensOf (t : OmpTask) : List Token := t.deps.map Prod.fst

/-- The task writes the token (an `out` or `inout` dependence). -/
def writesToken (t : OmpTask) (tok : Token) : Prop :=
  (tok, DepMode.writeOnly) ∈ t.deps ∨ (tok, DepMode.readWrite) ∈ t.deps

/-- Two tasks conflict — their dependency clauses impose an ordering — iff
they share a token at least one of them writes. -/
def tasksConflict (t1 t2 : OmpTask) : Prop :=
  ∃ tok, tok ∈ tokensOf t1 ∧ tok ∈ tokensOf t2 ∧ (writesToken t1 tok ∨ writesToken t2 tok)

/-! ### MPI broadcasts of one driver iteration and their tags -/

/-- Block-cyclic owner of tile `(i, j)` on the `P×Q` process grid. -/
def owner (P Q i j : ℕ) : ℕ × ℕ := (i % P, j % Q)

/-- Processes owning at least one tile of the row-view `(i, j0..j1-1)`. -/
def rowDests (P Q i j0 j1 : ℕ) : Finset (ℕ × ℕ) :=
  (Finset.Ico j0 j1).image fun c => owner P Q i c

/-- Processes owning at least one tile of the column-view `(i0..i1-1, j)`. -/
def colDests (P Q i0 i1 j : ℕ) : Finset (ℕ × ℕ) :=
  (Finset.Ico i0 i1).image fun r => owner P Q r j

/-- A broadcast: source rank, destination rank set, MPI tag. -/
structure Bcast where
  src : ℕ × ℕ
  dests : Finset (ℕ × ℕ)
  tag : ℕ
deriving DecidableEq

/-- The broadcasts of one driver iteration `k`. -/
inductive BcastId
  | diagB
  | panelRowB (i : ℕ)
  | lookaheadB (j : ℕ)
  | trailingB (j : ℕ)
deriving DecidableEq

/-- The broadcast of each id, read off the source: the diagonal-tile
`listBcast` of `A(k,k)` with tag `k`; the panel-row `listBcastMT` of `A(i,k)`
with tag `i`; the lookahead `tileBcast` of `A(k,j)` with tag `j`; the trailing
`listBcastMT` of `A(k,j)` with tag `j + A_mt`. -/
def bcastOf (P Q Mt Nt k : ℕ) : BcastId → Bcast
  | .diagB => ⟨owner P Q k k, colDests P Q (k + 1) Mt k ∪ rowDests P Q k (k + 1) Nt, k⟩
  | .panelRowB i => ⟨owner P Q i k, rowDests P Q i (k + 1) Nt, i⟩
  | .lookaheadB j => ⟨owner P Q k j, colDests P Q (k + 1) Mt j, j⟩
  | .trailingB j => ⟨owner P Q k j, colDests P Q (k + 1) Mt j, j + Mt⟩

/-- Which broadcasts iteration `k` actually performs, given `lookahead = l`. -/
def validBcast (Mt Nt k l : ℕ) : BcastId → Prop
  | .diagB => True
  | .panelRowB i => k + 1 ≤ i ∧ i < Mt
  | .lookaheadB j => k + 1 ≤ j ∧ j < k + 1 + l ∧ j < Nt
  | .trailingB j => k + 1 + l ≤ j ∧ j < Nt

/-- The `(source-rank, dest-rank, tag)` triples of the MPI messages a
broadcast produces (one per destination other than the source itself). -/
def messages (b : Bcast) : Finset ((ℕ × ℕ) × (ℕ × ℕ) × ℕ) :=
  (b.dests.erase b.src).image fun d => (b.src, d, b.tag)

/-- Map with only `MaxPanelThreads = 2`. -/
def c10OptsA : OptMap := fun o =>
  match o with
  | OptName.MaxPanelThreads => some 2
  | _ => none

/-- Map with only `MaxPanelThreads = 5`. -/
def c10OptsB : OptMap := fun o =>
  match o with
  | OptName.MaxPanelThreads => some 5
  | _ => none

/-! ### Compatibility shims (`lapack_api` / `scalapack_api`)

Each shim brackets its body with
`int saved_num_blas_threads = slate_..._set_num_blas_threads(1);` at entry and
`slate_..._set_num_blas_threads(saved_num_blas_threads);` before the normal
return.  There is no scope guard and no catch block: any exception thrown in
between — the `blas::char2side`-family parsers throw on invalid characters,
and the wrapped driver call can raise any engine error — propagates past the
restore statement. -/

/-- The process-wide BLAS thread-count setting. -/
structure BlasThreadState where
  nthreads : ℤ
deriving DecidableEq

/-- Model of `slate_set_num_blas_threads(n)`: sets the process-wide count, returning
the previous value. -/
def slate_set_num_blas_threads (n : ℤ) (s : BlasThreadState) : ℤ × BlasThreadState :=
  (s.nthreads, ⟨n⟩)

/-- The `slate_trmm` shim as a state transformer over the BLAS thread count.
`parseArgs` stands for the `blas::char2side/char2uplo/char2op/char2diag`
parsing (external to this tree; throws `InvalidArgument` on bad characters)
and `trmmCall` for the wrapped `slate::trmm` driver call (which can raise any
engine error).  Both run after the clamp to 1 and before the restore, exactly
as in the source. -/
def slate_trmm (parseArgs : Except SlateError Unit) (trmmCall : Except SlateError Unit)
    (s : BlasThreadState) : Except SlateError Unit × BlasThreadState :=
  let p := slate_set_num_blas_threads 1 s
  match parseArgs with
  | .error e => (.error e, p.2)
  | .ok _ =>
    match trmmCall with
    | .error e => (.error e, p.2)
    | .ok _ =>
      let q := slate_set_num_blas_threads p.1 p.2
      (.ok (), q.2)

/-- A ScaLAPACK-style matrix descriptor: context, global rows, global cols,
block rows, block cols, row source, col source, local leading dimension. -/
structure Desc where
  ctxt : ℤ
  m : ℤ
  n : ℤ
  mb : ℤ
  nb : ℤ
  rsrc : ℤ
  csrc : ℤ
  lld : ℤ
deriving DecidableEq

def desc_CTXT (d : Desc) : ℤ := d.ctxt

def desc_M (d : Desc) : ℤ := d.m

def desc_N (d : Desc) : ℤ := d.n

def desc_MB (d : Desc) : ℤ := d.mb

def desc_LLD (d : Desc) : ℤ := d.lld

/-- The result of the `Cblacs_gridinfo` callback. -/
structure GridInfo where
  nprow : ℤ
  npcol : ℤ
  myrow : ℤ
  mycol : ℤ
deriving DecidableEq

/-- The observable actions of one shim call: what it extracts from the
descriptor and the grid-info callback, the sub-matrix offset, the option map
it passes to the core driver, and the diagnostic integer it writes by
reference — `none` when the entry point has no such out-parameter. -/
structure ShimTrace where
  probN : ℤ
  lld : ℤ
  mb : ℤ
  gridP : ℤ
  gridQ : ℤ
  subOffset : ℤ × ℤ
  optLookahead : Option ℤ
  optTarget : Option ℤ
  infoOut : Option ℤ
deriving DecidableEq

/-- The `slate_pposv` shim (scalapack_api): grid info from
`Cblacs_gridinfo(desc_CTXT(desca))`, wrapper on `(desc_N, desc_LLD, desc_MB)`,
sub-matrix at `(ia, ja)`, options `{Lookahead = 1, Target = target}`, and
`*info = 0` written unconditionally at the end (`todo: extract the real
info`). -/
def slate_pposv (n nrhs ia ja : ℤ) (desca : Desc) (grid : ℤ → GridInfo)
    (target : ℤ) : ShimTrace :=
  { probN := desc_N desca
    lld := desc_LLD desca
    mb := desc_MB desca
    gridP := (grid (desc_CTXT desca)).nprow
    gridQ := (grid (desc_CTXT desca)).npcol
    subOffset := (ia, ja)
    optLookahead := some 1
    optTarget := some target
    infoOut := some 0 }

/-- The `slate_planhe` shim (scalapack_api): same extraction, sub-matrix and
option map as `slate_pposv`, but the entry point returns the computed norm by
value and has no diagnostic out-parameter at all. -/
def slate_planhe (n ia ja : ℤ) (desca : Desc) (grid : ℤ → GridInfo)
    (target : ℤ) : ShimTrace :=
  { probN := desc_N desca
    lld := desc_LLD desca
    mb := desc_MB desca
    gridP := (grid (desc_CTXT desca)).nprow
    gridQ := (grid (desc_CTXT desca)).npcol
    subOffset := (ia, ja)
    optLookahead := some 1
    optTarget := some target
    infoOut := none }

/-- Arguments of a shim call. -/
structure ShimArgs where
  n : ℤ
  nrhs : ℤ
  ia : ℤ
  ja : ℤ
  desca : Desc
  grid : ℤ → GridInfo
  target : ℤ

/-- The compatibility-shim entry points under scrutiny. -/
inductive CompatEntry
  | pposv
  | planhe
deriving DecidableEq

def compatShimTrace : CompatEntry → ShimArgs → ShimTrace
  | .pposv, a => slate_pposv a.n a.nrhs a.ia a.ja a.desca a.grid a.target
  | .planhe, a => slate_planhe a.n a.ia a.ja a.desca a.grid a.target

/-- Concrete shim arguments. -/
def c9Args : ShimArgs :=
  ⟨4, 1, 1, 1, ⟨0, 4, 4, 2, 2, 0, 0, 4⟩, fun _ => ⟨1, 2, 0, 0⟩, 1⟩

/-! #### Theorems -/

section LuLemmas

variable {K : Type} [Field K] {n : ℕ}

theorem luStep_row_stable (S : Matrix (Fin n) (Fin n) K) (k : Fin n) (i j : Fin n)
    (h : (i : ℕ) ≤ (k : ℕ)) : luStep S k i j = S i j := by
  unfold luStep
  simp only [Matrix.of_apply]
  rw [if_neg, if_neg]
  · rintro ⟨hki, -⟩; omega
  · rintro ⟨hki, -⟩; omega

theorem luIter_row_stable (A : Matrix (Fin n) (Fin n) K) (m m' : ℕ) (hmm : m ≤ m')
    (i j : Fin n) (hi : (i : ℕ) ≤ m) : luIter A m' i j = luIter A m i j := by
  induction m' with
  | zero =>
    have : m = 0 := Nat.le_zero.mp hmm
    rw [this]
  | succ t ih =>
    rcases Nat.lt_or_ge m (t + 1) with hlt | hge
    · have hmt : m ≤ t := Nat.lt_succ_iff.mp hlt
      rw [show luIter A (t + 1) = if h : t < n then luStep (luIter A t) ⟨t, h⟩ else luIter A t
          from rfl]
      split
      · rw [luStep_row_stable _ _ _ _ (by simpa using le_trans hi hmt), ih hmt]
      · exact ih hmt
    · have : m = t + 1 := le_antisymm hmm hge
      rw [this]

theorem luIter_eq_getrf_on_row (A : Matrix (Fin n) (Fin n) K) (m : ℕ) (i j : Fin n)
    (hi : (i : ℕ) ≤ m) : luIter A m i j = getrf_nopiv A i j := by
  unfold getrf_nopiv
  rcases Nat.le_total m n with h | h
  · rw [luIter_row_stable A m n h i j hi]
  · rw [luIter_row_stable A n m h i j (Nat.le_of_lt i.isLt)]

theorem luStep_col_stable (S : Matrix (Fin n) (Fin n) K) (k : Fin n) (i j : Fin n)
    (h : (j : ℕ) < (k : ℕ)) : luStep S k i j = S i j := by
  unfold luStep
  simp only [Matrix.of_apply]
  rw [if_neg, if_neg]
  · rintro ⟨-, hkj⟩; omega
  · rintro ⟨-, hjk⟩; omega

theorem luStep_multiplier (S : Matrix (Fin n) (Fin n) K) (k i : Fin n)
    (h : (k : ℕ) < (i : ℕ)) : luStep S k i k = S i k / S k k := by
  show (if (k : ℕ) < (i : ℕ) ∧ (k : ℕ) = (k : ℕ) then S i k / S k k
      else if (k : ℕ) < (i : ℕ) ∧ (k : ℕ) < (k : ℕ) then S i k - S i k / S k k * S k k
      else S i k) = S i k / S k k
  rw [if_pos ⟨h, rfl⟩]

theorem luStep_update (S : Matrix (Fin n) (Fin n) K) (k i j : Fin n)
    (h1 : (k : ℕ) < (i : ℕ)) (h2 : (k : ℕ) < (j : ℕ)) :
    luStep S k i j = S i j - S i k / S k k * S k j := by
  show (if (k : ℕ) < (i : ℕ) ∧ (j : ℕ) = (k : ℕ) then S i k / S k k
      else if (k : ℕ) < (i : ℕ) ∧ (k : ℕ) < (j : ℕ) then S i j - S i k / S k k * S k j
      else S i j) = S i j - S i k / S k k * S k j
  rw [if_neg (by omega), if_pos ⟨h1, h2⟩]

theorem partialL_mult (S : Matrix (Fin n) (Fin n) K) (m : ℕ) (i j : Fin n)
    (h1 : (j : ℕ) < m) (h2 : (j : ℕ) < (i : ℕ)) : partialL S m i j = S i j := by
  show (if (j : ℕ) < m ∧ (j : ℕ) < (i : ℕ) then S i j else if i = j then 1 else 0) = S i j
  rw [if_pos ⟨h1, h2⟩]

theorem partialL_diag (S : Matrix (Fin n) (Fin n) K) (m : ℕ) (i : Fin n) :
    partialL S m i i = 1 := by
  show (if (i : ℕ) < m ∧ (i : ℕ) < (i : ℕ) then S i i else if i = i then 1 else 0) = 1
  rw [if_neg (by omega), if_pos rfl]

theorem partialL_off (S : Matrix (Fin n) (Fin n) K) (m : ℕ) (i j : Fin n)
    (h : ¬((j : ℕ) < m ∧ (j : ℕ) < (i : ℕ))) (hne : i ≠ j) : partialL S m i j = 0 := by
  show (if (j : ℕ) < m ∧ (j : ℕ) < (i : ℕ) then S i j else if i = j then 1 else 0) = 0
  rw [if_neg h, if_neg hne]

theorem partialU_low (S : Matrix (Fin n) (Fin n) K) (m : ℕ) (i j : Fin n)
    (h1 : (j : ℕ) < m) (h2 : (j : ℕ) < (i : ℕ)) : partialU S m i j = 0 := by
  show (if (j : ℕ) < m ∧ (j : ℕ) < (i : ℕ) then 0 else S i j) = 0
  rw [if_pos ⟨h1, h2⟩]

theorem partialU_keep (S : Matrix (Fin n) (Fin n) K) (m : ℕ) (i j : Fin n)
    (h : ¬((j : ℕ) < m ∧ (j : ℕ) < (i : ℕ))) : partialU S m i j = S i j := by
  show (if (j : ℕ) < m ∧ (j : ℕ) < (i : ℕ) then 0 else S i j) = S i j
  rw [if_neg h]

theorem lowerFactor_lt (F : Matrix (Fin n) (Fin n) K) (i j : Fin n)
    (h : (j : ℕ) < (i : ℕ)) : lowerFactor F i j = F i j := by
  show (if (j : ℕ) < (i : ℕ) then F i j else if i = j then 1 else 0) = F i j
  rw [if_pos h]

theorem lowerFactor_diag (F : Matrix (Fin n) (Fin n) K) (i : Fin n) :
    lowerFactor F i i = 1 := by
  show (if (i : ℕ) < (i : ℕ) then F i i else if i = i then 1 else 0) = 1
  rw [if_neg (by omega), if_pos rfl]

theorem lowerFactor_off (F : Matrix (Fin n) (Fin n) K) (i j : Fin n)
    (h : ¬((j : ℕ) < (i : ℕ))) (hne : i ≠ j) : lowerFactor F i j = 0 := by
  show (if (j : ℕ) < (i : ℕ) then F i j else if i = j then 1 else 0) = 0
  rw [if_neg h, if_neg hne]

theorem upperFactor_le (F : Matrix (Fin n) (Fin n) K) (i j : Fin n)
    (h : (i : ℕ) ≤ (j : ℕ)) : upperFactor F i j = F i j := by
  show (if (i : ℕ) ≤ (j : ℕ) then F i j else 0) = F i j
  rw [if_pos h]

theorem upperFactor_zero (F : Matrix (Fin n) (Fin n) K) (i j : Fin n)
    (h : ¬((i : ℕ) ≤ (j : ℕ))) : upperFactor F i j = 0 := by
  show (if (i : ℕ) ≤ (j : ℕ) then F i j else 0) = 0
  rw [if_neg h]

/-- Loop invariant of the driver: after `m` iterations the product of the
partially accumulated unit-lower factor and the partially eliminated matrix
reproduces the input exactly. -/
theorem partial_mul_invariant (A : Matrix (Fin n) (Fin n) K)
    (hpiv : ∀ k : Fin n, getrf_nopiv A k k ≠ 0) (m : ℕ) :
    partialL (luIter A m) m * partialU (luIter A m) m = A := by
  induction m with
  | zero =>
    have hL : partialL (luIter A 0) 0 = 1 := by
      ext i j
      simp [partialL, Matrix.one_apply]
    have hU : partialU (luIter A 0) 0 = A := by
      ext i j
      simp [partialU, luIter]
    rw [hL, hU, one_mul]
  | succ m ih =>
    rcases Nat.lt_or_ge m n with h | h
    · -- an actual elimination step is performed
      have hiter : luIter A (m + 1) = luStep (luIter A m) ⟨m, h⟩ := dif_pos h
      set km : Fin n := ⟨m, h⟩ with hkmdef
      set S := luIter A m with hSdef
      have hkmval : (km : ℕ) = m := rfl
      have hpivm : S km km ≠ 0 := by
        have h1 : S km km = getrf_nopiv A km km :=
          luIter_eq_getrf_on_row A m km km (le_refl m)
        rw [h1]
        exact hpiv km
      have hrow : ∀ (p q : Fin n), (p : ℕ) ≤ m → luStep S km p q = S p q :=
        fun p q hp => luStep_row_stable S km p q hp
      have hcol : ∀ (p q : Fin n), (q : ℕ) < m → luStep S km p q = S p q :=
        fun p q hq => luStep_col_stable S km p q hq
      rw [hiter, ← ih]
      ext i j
      rw [Matrix.mul_apply, Matrix.mul_apply]
      rcases Nat.lt_or_ge m (i : ℕ) with hi | hi
      · -- row in the trailing block: only terms `t = km` and `t = i` change
        have hkmi : km ≠ i := by
          intro hc
          rw [hc] at hkmval
          omega
        have key : ∀ g : Fin n → K,
            (∑ t, g t)
              = (∑ t ∈ Finset.univ \ ({km, i} : Finset (Fin n)), g t) + (g km + g i) := by
          intro g
          rw [← Finset.sum_pair hkmi]
          exact (Finset.sum_sdiff (Finset.subset_univ _)).symm
        rw [key, key]
        congr 1
        · apply Finset.sum_congr rfl
          intro t ht
          simp only [Finset.mem_sdiff, Finset.mem_univ, Finset.mem_insert,
            Finset.mem_singleton, true_and] at ht
          push_neg at ht
          obtain ⟨htkm, hti⟩ := ht
          have htm : (t : ℕ) ≠ m := by
            intro hc
            exact htkm (Fin.ext (by omega))
          have htine : i ≠ t := fun hc => hti hc.symm
          rcases Nat.lt_or_ge (t : ℕ) m with htlt | htge
          · -- untouched multiplier column
            rw [partialL_mult (luStep S km) (m + 1) i t (by omega) (by omega),
              hcol i t htlt, partialL_mult S m i t htlt (by omega)]
            by_cases hjt : (j : ℕ) < (t : ℕ)
            · rw [partialU_low (luStep S km) (m + 1) t j (by omega) hjt,
                partialU_low S m t j (by omega) hjt]
            · rw [partialU_keep (luStep S km) (m + 1) t j (by omega),
                partialU_keep S m t j (by omega), hrow t j (le_of_lt htlt)]
          · -- column beyond the current panel: both lower factors vanish there
            rw [partialL_off (luStep S km) (m + 1) i t (by omega) htine,
              partialL_off S m i t (by omega) htine, zero_mul, zero_mul]
        · -- the two changed terms rebalance
          have hikm : i ≠ km := fun hc => by
            rw [hc] at hi
            omega
          rw [partialL_diag (luStep S km) (m + 1) i, partialL_diag S m i,
            partialL_off S m i km (by omega) hikm,
            partialL_mult (luStep S km) (m + 1) i km (by omega) (by omega),
            luStep_multiplier S km i (by omega),
            one_mul, one_mul, zero_mul, zero_add]
          rcases lt_trichotomy (j : ℕ) m with hj | hj | hj
          · -- column already settled: all terms vanish
            rw [partialU_low (luStep S km) (m + 1) km j (by omega) (by omega),
              partialU_low (luStep S km) (m + 1) i j (by omega) (by omega),
              partialU_low S m i j hj (by omega)]
            simp
          · -- pivot column: multiplier times pivot restores the entry
            have hjkm : j = km := Fin.ext (by omega)
            rw [hjkm,
              partialU_keep (luStep S km) (m + 1) km km (by omega),
              partialU_low (luStep S km) (m + 1) i km (by omega) (by omega),
              partialU_keep S m i km (by omega),
              hrow km km (by omega),
              div_mul_cancel₀ _ hpivm]
            simp
          · -- trailing column: the update telescopes with the restored product
            rw [partialU_keep (luStep S km) (m + 1) km j (by omega),
              partialU_keep (luStep S km) (m + 1) i j (by omega),
              partialU_keep S m i j (by omega),
              hrow km j (by omega),
              luStep_update S km i j (by omega) (by omega)]
            ring
      · -- rows at or above the panel are untouched: termwise equal
        apply Finset.sum_congr rfl
        intro t _
        rcases lt_trichotomy (t : ℕ) (i : ℕ) with htl | hte | htg
        · rw [partialL_mult (luStep S km) (m + 1) i t (by omega) htl, hrow i t hi,
            partialL_mult S m i t (by omega) htl]
          by_cases hjt : (j : ℕ) < (t : ℕ)
          · rw [partialU_low (luStep S km) (m + 1) t j (by omega) hjt,
              partialU_low S m t j (by omega) hjt]
          · rw [partialU_keep (luStep S km) (m + 1) t j (by omega),
              partialU_keep S m t j (by omega), hrow t j (by omega)]
        · have hteq : t = i := Fin.ext hte
          rw [hteq, partialL_diag (luStep S km) (m + 1) i, partialL_diag S m i,
            one_mul, one_mul]
          by_cases hjt : (j : ℕ) < (i : ℕ)
          · rw [partialU_low (luStep S km) (m + 1) i j (by omega) hjt,
              partialU_low S m i j (by omega) hjt]
          · rw [partialU_keep (luStep S km) (m + 1) i j (by omega),
              partialU_keep S m i j (by omega), hrow i j hi]
        · have hne : i ≠ t := fun hc => by
            rw [hc] at htg
            omega
          rw [partialL_off (luStep S km) (m + 1) i t (by omega) hne,
            partialL_off S m i t (by omega) hne, zero_mul, zero_mul]
    · -- no step beyond the matrix: the state and both factors are unchanged
      have hiter : luIter A (m + 1) = luIter A m := dif_neg (by omega)
      rw [hiter]
      have hL : partialL (luIter A m) (m + 1) = partialL (luIter A m) m := by
        ext i j
        have hjn := j.isLt
        rcases lt_trichotomy (j : ℕ) (i : ℕ) with hji | hji | hji
        · rw [partialL_mult _ _ _ _ (by omega) hji, partialL_mult _ _ _ _ (by omega) hji]
        · have : i = j := Fin.ext hji.symm
          rw [this, partialL_diag, partialL_diag]
        · have hne : i ≠ j := fun hc => by
            rw [hc] at hji
            omega
          rw [partialL_off _ _ _ _ (by omega) hne, partialL_off _ _ _ _ (by omega) hne]
      have hU : partialU (luIter A m) (m + 1) = partialU (luIter A m) m := by
        ext i j
        have hjn := j.isLt
        by_cases hji : (j : ℕ) < (i : ℕ)
        · rw [partialU_low _ _ _ _ (by omega) hji, partialU_low _ _ _ _ (by omega) hji]
        · rw [partialU_keep _ _ _ _ (by omega), partialU_keep _ _ _ _ (by omega)]
      rw [hL, hU]
      exact ih

/-- Exact reconstruction: with all pivots nonzero, the packed factors multiply
back to the input. -/
theorem getrf_nopiv_mul_factors (A : Matrix (Fin n) (Fin n) K)
    (hpiv : ∀ k : Fin n, getrf_nopiv A k k ≠ 0) :
    lowerFactor (getrf_nopiv A) * upperFactor (getrf_nopiv A) = A := by
  have hinv := partial_mul_invariant A hpiv n
  have hL : partialL (luIter A n) n = lowerFactor (getrf_nopiv A) := by
    ext i j
    rcases lt_trichotomy (j : ℕ) (i : ℕ) with hji | hji | hji
    · rw [partialL_mult _ _ _ _ j.isLt hji, lowerFactor_lt _ _ _ hji]
      rfl
    · have : i = j := Fin.ext hji.symm
      rw [this, partialL_diag, lowerFactor_diag]
    · have hne : i ≠ j := fun hc => by
        rw [hc] at hji
        omega
      rw [partialL_off _ _ _ _ (by omega) hne, lowerFactor_off _ _ _ (by omega) hne]
  have hU : partialU (luIter A n) n = upperFactor (getrf_nopiv A) := by
    ext i j
    by_cases hji : (j : ℕ) < (i : ℕ)
    · rw [partialU_low _ _ _ _ j.isLt hji, upperFactor_zero _ _ _ (by omega)]
    · rw [partialU_keep _ _ _ _ (by omega), upperFactor_le _ _ _ (by omega)]
      rfl
  rw [← hL, ← hU]
  exact hinv

end LuLemmas

theorem norm1_nonneg {K : Type} [Field K] {n : ℕ} (v : AbsoluteValue K ℚ)
    (A : Matrix (Fin n) (Fin n) K) : 0 ≤ norm1 v A :=
  (Finset.le_fold_max 0).mpr (Or.inl le_rfl)

theorem norm1_zero_matrix {K : Type} [Field K] {n : ℕ} (v : AbsoluteValue K ℚ) :
    norm1 v (0 : Matrix (Fin n) (Fin n) K) = 0 := by
  refine le_antisymm ((Finset.fold_max_le 0).mpr ⟨le_rfl, fun j _ => ?_⟩) (norm1_nonneg v 0)
  simp [v.map_zero]

/-- C1: For every supported scalar type and every matrix `A` whose pivots are
all nonzero, after `getrf_nopiv(A, opts)` returns, reading `L` as the
unit-lower-triangular factor and `U` as the upper-triangular factor from the
overwritten storage gives a product `L*U` equal to the original `A` within
`n*eps*norm1(A)` in the 1-norm.  (In the exact-arithmetic semantics of the
embedding the reconstruction is exact, so the bound holds for every
`eps ≥ 0`.) -/
theorem C1_factorization_correct {K : Type} [Field K] {n : ℕ} (v : AbsoluteValue K ℚ)
    (A : Matrix (Fin n) (Fin n) K) (hpiv : ∀ k : Fin n, getrf_nopiv A k k ≠ 0)
    (eps : ℚ) (heps : 0 ≤ eps) :
    norm1 v (lowerFactor (getrf_nopiv A) * upperFactor (getrf_nopiv A) - A)
      ≤ (n : ℚ) * eps * norm1 v A := by
  rw [getrf_nopiv_mul_factors A hpiv, sub_self, norm1_zero_matrix]
  exact mul_nonneg (mul_nonneg (Nat.cast_nonneg n) heps) (norm1_nonneg v A)

theorem C1_factorization_correct_witness :
    (∀ k : Fin 1, getrf_nopiv exampleA k k ≠ 0) ∧
    norm1 AbsoluteValue.abs
        (lowerFactor (getrf_nopiv exampleA) * upperFactor (getrf_nopiv exampleA) - exampleA)
      ≤ ((1 : ℕ) : ℚ) * 1 * norm1 AbsoluteValue.abs exampleA := by
  have hpiv : ∀ k : Fin 1, getrf_nopiv exampleA k k ≠ 0 := by decide
  exact ⟨hpiv, C1_factorization_correct AbsoluteValue.abs exampleA hpiv 1 (by norm_num)⟩

/-- C2: If during `getrf_nopiv` a diagonal tile contains an exact zero on its
diagonal, the driver call still runs to completion and returns normally
without raising, the factored (singular) matrix is returned as-is, and a
warning-level diagnostic recording the singular column is emitted via the
observability hook. -/
theorem C2_singular_pivot_nonfatal {K : Type} [Field K] [DecidableEq K] {n : ℕ}
    (A : Matrix (Fin n) (Fin n) K) (k : Fin n) (hk : getrf_nopiv A k k = 0) :
    getrf_nopiv_driver A = Except.ok (getrf_nopiv A, singularDiagnostics A)
    ∧ (k : ℕ) ∈ singularDiagnostics A := by
  refine ⟨rfl, ?_⟩
  unfold singularDiagnostics
  refine List.mem_map.mpr ⟨k, ?_, rfl⟩
  refine List.mem_filter.mpr ⟨List.mem_finRange k, by simp [hk]⟩

theorem C2_singular_pivot_nonfatal_witness :
    getrf_nopiv exampleSingular 0 0 = 0 ∧
    (getrf_nopiv_driver exampleSingular
        = Except.ok (getrf_nopiv exampleSingular, singularDiagnostics exampleSingular)
      ∧ ((0 : Fin 1) : ℕ) ∈ singularDiagnostics exampleSingular) := by
  have hk : getrf_nopiv exampleSingular 0 0 = 0 := by decide
  exact ⟨hk, C2_singular_pivot_nonfatal exampleSingular 0 hk⟩

theorem mptStage_error (T : ℤ) (mo : Option ℤ) (l i : ℤ) (e : SlateError)
    (h : mptStage T mo l i = .error e) : e = SlateError.assertionFailure := by
  cases mo with
  | some v =>
    simp only [mptStage] at h
    split_ifs at h
    injection h with h
    exact h.symm
  | none => simp [mptStage] at h

theorem ibStage_error (T : ℤ) (io mo : Option ℤ) (l : ℤ) (e : SlateError)
    (h : ibStage T io mo l = .error e) : e = SlateError.assertionFailure := by
  cases io with
  | some v =>
    simp only [ibStage] at h
    split_ifs at h
    · exact mptStage_error T mo l v e h
    · injection h with h
      exact h.symm
  | none => exact mptStage_error T mo l 16 e h

theorem lookStage_error (T : ℤ) (lo io mo : Option ℤ) (e : SlateError)
    (h : lookStage T lo io mo = .error e) : e = SlateError.assertionFailure := by
  cases lo with
  | some v =>
    simp only [lookStage] at h
    split_ifs at h
    · exact ibStage_error T io mo v e h
    · injection h with h
      exact h.symm
  | none => exact ibStage_error T io mo 1 e h

/-- C3 counterexample: with `InnerBlocking = 0` (a non-positive value) the
call does not fail with InvalidArgument — the entry assert is `ib >= 0`, so
the value passes validation and the driver runs normally. -/
theorem C3_counterexample :
    resolveOpts 8 c3Opts = Except.ok ⟨1, 0, 4⟩
    ∧ getrf_nopiv_top 8 c3Opts exampleA
        = Except.ok (getrf_nopiv exampleA, driverOps 1 1 1)
    ∧ getrf_nopiv_top 8 c3Opts exampleA ≠ Except.error SlateError.invalidArgument := by
  refine ⟨rfl, rfl, ?_⟩
  intro h
  rw [show getrf_nopiv_top 8 c3Opts exampleA
      = Except.ok (getrf_nopiv exampleA, driverOps 1 1 1) from rfl] at h
  exact Except.noConfusion h

/-- C3 (amended): validation of out-of-range option values at driver entry is
by debug `assert` — modelled as an abort distinct from InvalidArgument — with
a negative Lookahead, a negative InnerBlocking, or a MaxPanelThreads outside
`[1, omp_get_max_threads()]` tripping the assertion, while `InnerBlocking = 0`
passes (the assert is `ib >= 0`); no exit of option resolution produces
InvalidArgument. -/
theorem C3_assert_validation (T : ℤ) (opts : OptMap) :
    (∀ e, resolveOpts T opts = Except.error e → e = SlateError.assertionFailure)
    ∧ (∀ v, opts OptName.Lookahead = some v → v < 0 →
        resolveOpts T opts = Except.error SlateError.assertionFailure)
    ∧ (opts OptName.Lookahead = none →
        ∀ v, opts OptName.InnerBlocking = some v → v < 0 →
        resolveOpts T opts = Except.error SlateError.assertionFailure)
    ∧ (opts OptName.Lookahead = none → opts OptName.InnerBlocking = none →
        ∀ v, opts OptName.MaxPanelThreads = some v → (v < 1 ∨ T < v) →
        resolveOpts T opts = Except.error SlateError.assertionFailure)
    ∧ (opts OptName.Lookahead = none → opts OptName.InnerBlocking = some 0 →
        opts OptName.MaxPanelThreads = none →
        resolveOpts T opts = Except.ok ⟨1, 0, max (T / 2) 1⟩) := by
  refine ⟨fun e h => lookStage_error T _ _ _ e h, ?_, ?_, ?_, ?_⟩
  · intro v hv hneg
    unfold resolveOpts
    rw [hv]
    simp only [lookStage]
    rw [if_neg (by omega)]
  · intro hL v hv hneg
    unfold resolveOpts
    rw [hL, hv]
    simp only [lookStage, ibStage]
    rw [if_neg (by omega)]
  · intro hL hI v hv hrange
    unfold resolveOpts
    rw [hL, hI, hv]
    simp only [lookStage, ibStage, mptStage]
    rw [if_neg (by omega)]
  · intro hL hI hM
    unfold resolveOpts
    rw [hL, hI, hM]
    simp only [lookStage, ibStage, mptStage]
    rw [if_pos (by omega)]

theorem C3_assert_validation_witness :
    resolveOpts 8 c3NegLookOpts = Except.error SlateError.assertionFailure :=
  (C3_assert_validation 8 c3NegLookOpts).2.1 (-1) rfl (by norm_num)

theorem mem_ite_nil {α : Type} (c : Prop) [Decidable c] (l : List α) (a : α) :
    a ∈ (if c then l else []) ↔ c ∧ a ∈ l := by
  split_ifs with h <;> simp [h]

theorem panelFactor_mem_iterOps (Nt l a k : ℕ) :
    DriverOp.panelFactor k ∈ iterOps Nt l a ↔ k = a := by
  simp [iterOps, mem_ite_nil, List.mem_range'_1]

theorem lookaheadTrsmLeft_mem_iterOps (Nt l a k j : ℕ) :
    DriverOp.lookaheadTrsmLeft k j ∈ iterOps Nt l a
      ↔ k = a ∧ a + 1 ≤ j ∧ j < a + 1 + l ∧ j < Nt := by
  simp only [iterOps, List.mem_append, List.mem_cons, List.not_mem_nil, or_false,
    List.mem_flatMap, List.mem_range'_1, mem_ite_nil, reduceCtorEq,
    DriverOp.lookaheadTrsmLeft.injEq, false_or, false_and, and_false, or_self]
  constructor
  · rintro ⟨b, ⟨hb1, hb2⟩, hk, hj⟩
    subst hj
    subst hk
    refine ⟨rfl, hb1, ?_, ?_⟩ <;> omega
  · rintro ⟨hk, h1, h2, h3⟩
    exact ⟨j, ⟨h1, by omega⟩, hk, rfl⟩

theorem trailing_mem_iterOps (Nt l a k : ℕ) :
    (DriverOp.trailingTrsmLeft k ∈ iterOps Nt l a ↔ k = a ∧ a + 1 + l < Nt)
    ∧ (DriverOp.trailingRowBcast k ∈ iterOps Nt l a ↔ k = a ∧ a + 1 + l < Nt)
    ∧ (DriverOp.trailingGemm k ∈ iterOps Nt l a ↔ k = a ∧ a + 1 + l < Nt) := by
  refine ⟨?_, ?_, ?_⟩ <;>
    simp [iterOps, mem_ite_nil, List.mem_range'_1, and_comm]

theorem taskwait_not_mem_iterOps (Nt l a : ℕ) :
    DriverOp.taskwait ∉ iterOps Nt l a := by
  simp [iterOps, mem_ite_nil, List.mem_range'_1]

theorem updateAllOrigin_not_mem_iterOps (Nt l a : ℕ) :
    DriverOp.updateAllOrigin ∉ iterOps Nt l a := by
  simp [iterOps, mem_ite_nil, List.mem_range'_1]

/-- C6: the driver loop runs `k = 0 … min(Mt,Nt)-1`; within each iteration the
lookahead updates cover exactly the columns `j = k+1 … min(k+lookahead, Nt-1)`;
the three trailing-block tasks are submitted iff `k+1+lookahead < Nt`; and
after the loop the driver waits for all tasks and then pulls every tile's
device replica back to its host origin. -/
theorem C6_driver_structure (Mt Nt lookahead : ℕ) :
    (∀ k, DriverOp.panelFactor k ∈ driverOps Mt Nt lookahead ↔ k < min Mt Nt)
    ∧ (∀ k j, DriverOp.lookaheadTrsmLeft k j ∈ driverOps Mt Nt lookahead
        ↔ k < min Mt Nt ∧ k + 1 ≤ j ∧ j < k + 1 + lookahead ∧ j < Nt)
    ∧ (∀ k, (DriverOp.trailingTrsmLeft k ∈ driverOps Mt Nt lookahead
          ↔ k < min Mt Nt ∧ k + 1 + lookahead < Nt)
        ∧ (DriverOp.trailingRowBcast k ∈ driverOps Mt Nt lookahead
          ↔ k < min Mt Nt ∧ k + 1 + lookahead < Nt)
        ∧ (DriverOp.trailingGemm k ∈ driverOps Mt Nt lookahead
          ↔ k < min Mt Nt ∧ k + 1 + lookahead < Nt))
    ∧ (∃ pre, driverOps Mt Nt lookahead = pre ++ [DriverOp.taskwait, DriverOp.updateAllOrigin]
        ∧ DriverOp.taskwait ∉ pre ∧ DriverOp.updateAllOrigin ∉ pre) := by
  refine ⟨?_, ?_, ?_, ?_⟩
  · intro k
    simp only [driverOps, List.mem_append, List.mem_flatMap, List.mem_range,
      panelFactor_mem_iterOps]
    constructor
    · rintro (⟨a, ha, rfl⟩ | h)
      · exact ha
      · exact absurd h (by simp)
    · intro hk
      exact Or.inl ⟨k, hk, rfl⟩
  · intro k j
    simp only [driverOps, List.mem_append, List.mem_flatMap, List.mem_range,
      lookaheadTrsmLeft_mem_iterOps]
    constructor
    · rintro (⟨a, ha, rfl, h⟩ | h)
      · exact ⟨ha, h⟩
      · exact absurd h (by simp)
    · rintro ⟨hk, h⟩
      exact Or.inl ⟨k, hk, rfl, h⟩
  · intro k
    refine ⟨?_, ?_, ?_⟩ <;>
      · simp only [driverOps, List.mem_append, List.mem_flatMap, List.mem_range,
          (trailing_mem_iterOps _ _ _ _).1, (trailing_mem_iterOps _ _ _ _).2.1,
          (trailing_mem_iterOps _ _ _ _).2.2]
        constructor
        · rintro (⟨a, ha, rfl, h⟩ | h)
          · exact ⟨ha, h⟩
          · exact absurd h (by simp)
        · rintro ⟨hk, h⟩
          exact Or.inl ⟨k, hk, rfl, h⟩
  · refine ⟨(List.range (min Mt Nt)).flatMap (iterOps Nt lookahead), rfl, ?_, ?_⟩
    · intro h
      obtain ⟨a, _, h⟩ := List.mem_flatMap.mp h
      exact taskwait_not_mem_iterOps Nt lookahead a h
    · intro h
      obtain ⟨a, _, h⟩ := List.mem_flatMap.mp h
      exact updateAllOrigin_not_mem_iterOps Nt lookahead a h

/-- C7: absent options take the documented defaults — Lookahead 1,
InnerBlocking 16, Target HostTask — and a call with an empty option map
behaves identically to one passing those defaults explicitly. -/
theorem C7_option_defaults {K : Type} [Field K] {n : ℕ} (T : ℤ)
    (A : Matrix (Fin n) (Fin n) K) :
    getrf_nopiv_top T emptyOpts A = getrf_nopiv_top T defaultOpts A
    ∧ resolveOpts T emptyOpts = Except.ok ⟨1, 16, max (T / 2) 1⟩
    ∧ resolveOpts T defaultOpts = Except.ok ⟨1, 16, max (T / 2) 1⟩
    ∧ resolveTarget emptyOpts = targetCode Target.HostTask
    ∧ dispatchSpecialization (resolveTarget emptyOpts) = some Target.HostTask := by
  have hE : resolveOpts T emptyOpts = Except.ok ⟨1, 16, max (T / 2) 1⟩ := rfl
  have hD : resolveOpts T defaultOpts = Except.ok ⟨1, 16, max (T / 2) 1⟩ := by
    unfold resolveOpts defaultOpts
    simp only [lookStage, ibStage, mptStage]
    rw [if_pos (by norm_num), if_pos (by norm_num)]
  refine ⟨?_, hE, hD, rfl, rfl⟩
  unfold getrf_nopiv_top
  rw [show resolveTarget emptyOpts = resolveTarget defaultOpts from rfl, hE, hD]

theorem mptStage_valid_ok (T : ℤ) (mo : Option ℤ) (l i : ℤ)
    (hv : ∀ v, mo = some v → 1 ≤ v ∧ v ≤ T) :
    ∃ m, mptStage T mo l i = Except.ok ⟨l, i, m⟩ := by
  cases mo with
  | some v =>
    refine ⟨v, ?_⟩
    simp only [mptStage]
    rw [if_pos (hv v rfl)]
  | none => exact ⟨max (T / 2) 1, rfl⟩

theorem ibStage_mpt_irrelevant (T : ℤ) (io mo1 mo2 : Option ℤ) (l : ℤ)
    (hv1 : ∀ v, mo1 = some v → 1 ≤ v ∧ v ≤ T)
    (hv2 : ∀ v, mo2 = some v → 1 ≤ v ∧ v ≤ T) :
    (ibStage T io mo1 l = Except.error SlateError.assertionFailure
      ∧ ibStage T io mo2 l = Except.error SlateError.assertionFailure)
    ∨ (∃ i m1 m2, ibStage T io mo1 l = Except.ok ⟨l, i, m1⟩
        ∧ ibStage T io mo2 l = Except.ok ⟨l, i, m2⟩) := by
  cases io with
  | some w =>
    by_cases h0 : (0 : ℤ) ≤ w
    · obtain ⟨m1, hm1⟩ := mptStage_valid_ok T mo1 l w hv1
      obtain ⟨m2, hm2⟩ := mptStage_valid_ok T mo2 l w hv2
      refine Or.inr ⟨w, m1, m2, ?_, ?_⟩
      · simp only [ibStage]
        rw [if_pos h0]
        exact hm1
      · simp only [ibStage]
        rw [if_pos h0]
        exact hm2
    · refine Or.inl ⟨?_, ?_⟩
      · simp only [ibStage]
        rw [if_neg h0]
      · simp only [ibStage]
        rw [if_neg h0]
  | none =>
    obtain ⟨m1, hm1⟩ := mptStage_valid_ok T mo1 l 16 hv1
    obtain ⟨m2, hm2⟩ := mptStage_valid_ok T mo2 l 16 hv2
    exact Or.inr ⟨16, m1, m2, hm1, hm2⟩

theorem lookStage_mpt_irrelevant (T : ℤ) (lo io mo1 mo2 : Option ℤ)
    (hv1 : ∀ v, mo1 = some v → 1 ≤ v ∧ v ≤ T)
    (hv2 : ∀ v, mo2 = some v → 1 ≤ v ∧ v ≤ T) :
    (lookStage T lo io mo1 = Except.error SlateError.assertionFailure
      ∧ lookStage T lo io mo2 = Except.error SlateError.assertionFailure)
    ∨ (∃ l i m1 m2, lookStage T lo io mo1 = Except.ok ⟨l, i, m1⟩
        ∧ lookStage T lo io mo2 = Except.ok ⟨l, i, m2⟩) := by
  cases lo with
  | some v =>
    by_cases h0 : (0 : ℤ) ≤ v
    · rcases ibStage_mpt_irrelevant T io mo1 mo2 v hv1 hv2 with ⟨h1, h2⟩ | ⟨i, m1, m2, h1, h2⟩
      · refine Or.inl ⟨?_, ?_⟩
        · simp only [lookStage]
          rw [if_pos h0]
          exact h1
        · simp only [lookStage]
          rw [if_pos h0]
          exact h2
      · refine Or.inr ⟨v, i, m1, m2, ?_, ?_⟩
        · simp only [lookStage]
          rw [if_pos h0]
          exact h1
        · simp only [lookStage]
          rw [if_pos h0]
          exact h2
    · refine Or.inl ⟨?_, ?_⟩
      · simp only [lookStage]
        rw [if_neg h0]
      · simp only [lookStage]
        rw [if_neg h0]
  | none =>
    rcases ibStage_mpt_irrelevant T io mo1 mo2 1 hv1 hv2 with ⟨h1, h2⟩ | ⟨i, m1, m2, h1, h2⟩
    · exact Or.inl ⟨h1, h2⟩
    · exact Or.inr ⟨1, i, m1, m2, h1, h2⟩

/-- C10: the MaxPanelThreads option is parsed and validated at driver entry
but never consumed by either specialization (the `max_panel_threads` parameter
is unused), so for any two valid values of it — everything else equal — the
call produces identical results. -/
theorem C10_max_panel_threads_irrelevant {K : Type} [Field K] {n : ℕ} (T : ℤ)
    (opts1 opts2 : OptMap) (A : Matrix (Fin n) (Fin n) K)
    (hagree : ∀ o, o ≠ OptName.MaxPanelThreads → opts1 o = opts2 o)
    (hv1 : ∀ v, opts1 OptName.MaxPanelThreads = some v → 1 ≤ v ∧ v ≤ T)
    (hv2 : ∀ v, opts2 OptName.MaxPanelThreads = some v → 1 ≤ v ∧ v ≤ T) :
    getrf_nopiv_top T opts1 A = getrf_nopiv_top T opts2 A := by
  have hT : resolveTarget opts1 = resolveTarget opts2 := by
    unfold resolveTarget
    rw [hagree OptName.Target (by decide)]
  have hL : opts1 OptName.Lookahead = opts2 OptName.Lookahead := hagree _ (by decide)
  have hI : opts1 OptName.InnerBlocking = opts2 OptName.InnerBlocking := hagree _ (by decide)
  unfold getrf_nopiv_top resolveOpts
  rw [hT, hL, hI]
  rcases lookStage_mpt_irrelevant T (opts2 OptName.Lookahead) (opts2 OptName.InnerBlocking)
      (opts1 OptName.MaxPanelThreads) (opts2 OptName.MaxPanelThreads) hv1 hv2 with
    ⟨h1, h2⟩ | ⟨l, i, m1, m2, h1, h2⟩
  · rw [h1, h2]
  · rw [h1, h2]

/-- C5: the lookahead trsm-left task for column `j` of iteration `k` depends
exactly on `{diag[k] read, column[j] read-write}`; in particular it mentions
neither `column[k]` nor the bandwidth token, so no ordering holds between it
and the panel-row broadcast task of iteration `k`
(whose set is `{column[k], mpi_bandwidth}`), and the two may overlap. -/
theorem C5_lookahead_trsm_overlaps_bcast (Nt l k j : ℕ)
    (hj1 : k + 1 ≤ j) (_hj2 : j < k + 1 + l) (_hj3 : j < Nt) :
    (lookaheadTrsmTask k j).deps
        = [(Token.diag k, DepMode.readOnly), (Token.column j, DepMode.readWrite)]
    ∧ Token.column k ∉ tokensOf (lookaheadTrsmTask k j)
    ∧ Token.bandwidth ∉ tokensOf (lookaheadTrsmTask k j)
    ∧ ¬ tasksConflict (lookaheadTrsmTask k j) (panelRowBcastTask k) := by
  refine ⟨rfl, ?_, ?_, ?_⟩
  · simp only [tokensOf, lookaheadTrsmTask, List.map_cons, List.map_nil, List.mem_cons,
      List.not_mem_nil, or_false, reduceCtorEq, false_or, Token.column.injEq]
    omega
  · simp [tokensOf, lookaheadTrsmTask]
  · rintro ⟨tok, h1, h2, -⟩
    simp only [tokensOf, lookaheadTrsmTask, panelRowBcastTask, List.map_cons, List.map_nil,
      List.mem_cons, List.not_mem_nil, or_false] at h1 h2
    rcases h1 with rfl | rfl
    · rcases h2 with h2 | h2 <;> exact absurd h2 (by simp)
    · rcases h2 with h2 | h2
      · have hjk : j = k := by
          injection h2
        omega
      · exact absurd h2 (by simp)

theorem C5_lookahead_trsm_overlaps_bcast_witness :
    (lookaheadTrsmTask 0 1).deps
        = [(Token.diag 0, DepMode.readOnly), (Token.column 1, DepMode.readWrite)]
    ∧ Token.column 0 ∉ tokensOf (lookaheadTrsmTask 0 1)
    ∧ Token.bandwidth ∉ tokensOf (lookaheadTrsmTask 0 1)
    ∧ ¬ tasksConflict (lookaheadTrsmTask 0 1) (panelRowBcastTask 0) :=
  C5_lookahead_trsm_overlaps_bcast 2 1 0 1 (by norm_num) (by norm_num) (by norm_num)

theorem disjoint_of_tag_ne (b1 b2 : Bcast) (h : b1.tag ≠ b2.tag) :
    Disjoint (messages b1) (messages b2) := by
  rw [Finset.disjoint_left]
  intro x hx1 hx2
  obtain ⟨d1, hd1, h1⟩ := Finset.mem_image.mp hx1
  obtain ⟨d2, hd2, h2⟩ := Finset.mem_image.mp hx2
  exact h (congrArg (fun y => y.2.2) (h1.trans h2.symm))

/-- The only tag shared between two distinct broadcast families within an
iteration is `i = j` between the panel-row broadcast of `A(i,k)` and the
lookahead broadcast of `A(k,j)`; their message triples still never collide,
because a shared triple forces the destination to coincide with the source. -/
theorem panelRow_lookahead_messages_disjoint (P Q Mt Nt k i : ℕ) :
    Disjoint (messages (bcastOf P Q Mt Nt k (BcastId.panelRowB i)))
      (messages (bcastOf P Q Mt Nt k (BcastId.lookaheadB i))) := by
  rw [Finset.disjoint_left]
  intro x hx1 hx2
  obtain ⟨d1, hd1, h1⟩ := Finset.mem_image.mp hx1
  obtain ⟨d2, hd2, h2⟩ := Finset.mem_image.mp hx2
  have heq := h1.trans h2.symm
  rw [Prod.mk.injEq] at heq
  obtain ⟨hs, hrest⟩ := heq
  rw [Prod.mk.injEq] at hrest
  obtain ⟨hd, -⟩ := hrest
  have hs' : (i % P, k % Q) = ((k % P, i % Q) : ℕ × ℕ) := hs
  rw [Prod.mk.injEq] at hs'
  obtain ⟨hsP, hsQ⟩ := hs'
  have hd1ne := Finset.ne_of_mem_erase hd1
  obtain ⟨c, hc, hdc⟩ := Finset.mem_image.mp (Finset.mem_of_mem_erase hd1)
  obtain ⟨r, hr, hdr⟩ := Finset.mem_image.mp (Finset.mem_of_mem_erase hd2)
  apply hd1ne
  have e1 : d1.1 = i % P := by
    rw [← hdc]
    rfl
  have e2 : d1.2 = i % Q := by
    rw [hd, ← hdr]
    rfl
  have e2' : d1.2 = k % Q := by
    rw [e2, ← hsQ]
  have hdval : d1 = ((i % P, k % Q) : ℕ × ℕ) := Prod.ext e1 e2'
  rw [hdval]
  rfl

/-- C4: within a driver iteration `k`, the panel-row broadcast of `A(i,k)`
uses tag `i`, the lookahead-column broadcast of `A(k,j)` uses tag `j`, the
trailing-column broadcast of `A(k,j)` uses tag `j + Mt`, and the set of
`(source-rank, dest-rank, tag)` triples used by the iteration's broadcasts is
collision-free: distinct broadcasts produce disjoint message-triple sets. -/
theorem C4_broadcast_tags_collision_free (P Q Mt Nt k l : ℕ) :
    (∀ i, (bcastOf P Q Mt Nt k (BcastId.panelRowB i)).tag = i)
    ∧ (∀ j, (bcastOf P Q Mt Nt k (BcastId.lookaheadB j)).tag = j)
    ∧ (∀ j, (bcastOf P Q Mt Nt k (BcastId.trailingB j)).tag = j + Mt)
    ∧ (∀ b1 b2, validBcast Mt Nt k l b1 → validBcast Mt Nt k l b2 → b1 ≠ b2 →
        Disjoint (messages (bcastOf P Q Mt Nt k b1)) (messages (bcastOf P Q Mt Nt k b2))) := by
  refine ⟨fun i => rfl, fun j => rfl, fun j => rfl, ?_⟩
  intro b1 b2 v1 v2 hne
  cases b1 with
  | diagB =>
    cases b2 with
    | diagB => exact absurd rfl hne
    | panelRowB i =>
      obtain ⟨h1, h2⟩ := v2
      exact disjoint_of_tag_ne _ _ (fun hc => by
        have hc' : k = i := hc
        omega)
    | lookaheadB j =>
      obtain ⟨h1, h2, h3⟩ := v2
      exact disjoint_of_tag_ne _ _ (fun hc => by
        have hc' : k = j := hc
        omega)
    | trailingB j =>
      obtain ⟨h1, h2⟩ := v2
      exact disjoint_of_tag_ne _ _ (fun hc => by
        have hc' : k = j + Mt := hc
        omega)
  | panelRowB i =>
    obtain ⟨hi1, hi2⟩ := v1
    cases b2 with
    | diagB =>
      exact disjoint_of_tag_ne _ _ (fun hc => by
        have hc' : i = k := hc
        omega)
    | panelRowB i' =>
      have hii : i ≠ i' := fun hc => hne (by rw [hc])
      exact disjoint_of_tag_ne _ _ (fun hc => hii hc)
    | lookaheadB j =>
      rcases eq_or_ne i j with rfl | hij
      · exact panelRow_lookahead_messages_disjoint P Q Mt Nt k i
      · exact disjoint_of_tag_ne _ _ (fun hc => hij hc)
    | trailingB j =>
      obtain ⟨hj1, hj2⟩ := v2
      exact disjoint_of_tag_ne _ _ (fun hc => by
        have hc' : i = j + Mt := hc
        omega)
  | lookaheadB j =>
    obtain ⟨hj1, hj2, hj3⟩ := v1
    cases b2 with
    | diagB =>
      exact disjoint_of_tag_ne _ _ (fun hc => by
        have hc' : j = k := hc
        omega)
    | panelRowB i =>
      rcases eq_or_ne j i with rfl | hij
      · exact (panelRow_lookahead_messages_disjoint P Q Mt Nt k j).symm
      · exact disjoint_of_tag_ne _ _ (fun hc => hij hc)
    | lookaheadB j' =>
      have hjj : j ≠ j' := fun hc => hne (by rw [hc])
      exact disjoint_of_tag_ne _ _ (fun hc => hjj hc)
    | trailingB j' =>
      obtain ⟨hj1', hj2'⟩ := v2
      exact disjoint_of_tag_ne _ _ (fun hc => by
        have hc' : j = j' + Mt := hc
        omega)
  | trailingB j =>
    obtain ⟨hj1, hj2⟩ := v1
    cases b2 with
    | diagB =>
      exact disjoint_of_tag_ne _ _ (fun hc => by
        have hc' : j + Mt = k := hc
        omega)
    | panelRowB i =>
      obtain ⟨hi1, hi2⟩ := v2
      exact disjoint_of_tag_ne _ _ (fun hc => by
        have hc' : j + Mt = i := hc
        omega)
    | lookaheadB j' =>
      obtain ⟨hj1', hj2', hj3'⟩ := v2
      exact disjoint_of_tag_ne _ _ (fun hc => by
        have hc' : j + Mt = j' := hc
        omega)
    | trailingB j' =>
      have hjj : j ≠ j' := fun hc => hne (by rw [hc])
      exact disjoint_of_tag_ne _ _ (fun hc => by
        have hc' : j + Mt = j' + Mt := hc
        exact hjj (by omega))

theorem C4_broadcast_tags_collision_free_witness :
    Disjoint (messages (bcastOf 2 2 3 3 0 (BcastId.panelRowB 1)))
      (messages (bcastOf 2 2 3 3 0 (BcastId.lookaheadB 1))) :=
  (C4_broadcast_tags_collision_free 2 2 3 3 0 1).2.2.2
    (BcastId.panelRowB 1) (BcastId.lookaheadB 1)
    ⟨by norm_num, by norm_num⟩ ⟨by norm_num, by norm_num, by norm_num⟩ (by decide)

theorem C10_max_panel_threads_irrelevant_witness :
    getrf_nopiv_top 8 c10OptsA exampleA = getrf_nopiv_top 8 c10OptsB exampleA := by
  have hagree : ∀ o, o ≠ OptName.MaxPanelThreads → c10OptsA o = c10OptsB o := by
    intro o ho
    cases o
    · rfl
    · rfl
    · exact absurd rfl ho
    · rfl
  exact C10_max_panel_threads_irrelevant 8 c10OptsA c10OptsB exampleA hagree
    (fun v hv => by simp [c10OptsA] at hv; omega)
    (fun v hv => by simp [c10OptsB] at hv; omega)

/-- C8 counterexample: a `slate_trmm` call whose wrapped driver call raises
leaves the process-wide BLAS thread count clamped at 1 instead of restoring
the previous value 4 — the restore is skipped on the error exit path. -/
theorem C8_counterexample :
    (slate_trmm (Except.ok ()) (Except.error SlateError.communicationFailure)
        ⟨4⟩).2 = ⟨1⟩
    ∧ ((⟨1⟩ : BlasThreadState) ≠ ⟨4⟩) := by
  exact ⟨rfl, by decide⟩

/-- C8 (amended): every compatibility-API call saves the process-wide BLAS
thread count at entry and clamps it to 1; on the normal exit path the saved
value is restored, but on an exception exit the restore is skipped and the
clamp to 1 persists. -/
theorem C8_blas_threads_restore (parseArgs trmmCall : Except SlateError Unit)
    (s : BlasThreadState) :
    ((slate_trmm parseArgs trmmCall s).1 = Except.ok () →
      (slate_trmm parseArgs trmmCall s).2 = s)
    ∧ (∀ e, (slate_trmm parseArgs trmmCall s).1 = Except.error e →
      (slate_trmm parseArgs trmmCall s).2 = ⟨1⟩) := by
  cases parseArgs with
  | error e =>
    constructor
    · intro h
      simp [slate_trmm] at h
    · intro e' h
      rfl
  | ok u =>
    cases trmmCall with
    | error e =>
      constructor
      · intro h
        simp [slate_trmm] at h
      · intro e' h
        rfl
    | ok u' =>
      constructor
      · intro h
        rfl
      · intro e' h
        simp [slate_trmm] at h

theorem C8_blas_threads_restore_witness :
    (slate_trmm (Except.ok ()) (Except.ok ()) ⟨4⟩).2 = ⟨4⟩ :=
  (C8_blas_threads_restore (Except.ok ()) (Except.ok ()) ⟨4⟩).1 rfl

/-- C9 counterexample: the `slate_planhe` entry point returns the norm by
value and writes no diagnostic integer by reference, so not every
compatibility-shim entry point returns a zero diagnostic on success. -/
theorem C9_counterexample :
    (compatShimTrace CompatEntry.planhe c9Args).infoOut = none
    ∧ (none : Option ℤ) ≠ some 0 := by
  exact ⟨rfl, by decide⟩

/-- C9 (amended): every shim entry point extracts the problem size, local
leading dimension, block size and process grid from the descriptor via the
grid-info callback, constructs the sub-matrix view at `(ia, ja)` and invokes
the core driver with the option map `{Target: configured, Lookahead: 1}`;
solver-style entry points (`pposv`) additionally return a diagnostic integer
by reference that is zero on success, while norm-style entry points
(`planhe`) return the computed value and have no diagnostic out-parameter. -/
theorem C9_shim_behavior (a : ShimArgs) :
    (∀ e, (compatShimTrace e a).probN = desc_N a.desca
      ∧ (compatShimTrace e a).lld = desc_LLD a.desca
      ∧ (compatShimTrace e a).mb = desc_MB a.desca
      ∧ (compatShimTrace e a).gridP = (a.grid (desc_CTXT a.desca)).nprow
      ∧ (compatShimTrace e a).gridQ = (a.grid (desc_CTXT a.desca)).npcol
      ∧ (compatShimTrace e a).subOffset = (a.ia, a.ja)
      ∧ (compatShimTrace e a).optLookahead = some 1
      ∧ (compatShimTrace e a).optTarget = some a.target)
    ∧ (compatShimTrace CompatEntry.pposv a).infoOut = some 0
    ∧ (compatShimTrace CompatEntry.planhe a).infoOut = none := by
  refine ⟨fun e => ?_, rfl, rfl⟩
  cases e <;> exact ⟨rfl, rfl, rfl, rfl, rfl, rfl, rfl, rfl⟩

end Slate
